import Mathlib

/-!
Verification of the two algorithmic cores of the repository
goit-algo2-hw-10: the partition-based QuickSort of src/task1.py
(deterministic and randomized pivot selection) and the greedy set-cover
scheduler of src/task2.py.

Python lists of integers are embedded as List Int, with out-of-range reads
modelled by getD (every concrete read performed by the code is in range,
which the lemmas establish).  The in-place mutation of task1 is embedded by
passing the updated list through the recursion.  Randomness from the global
random module is embedded as an explicit stream of raw draws (List Nat)
that every randomized call consumes and returns, which models the shared
process-wide generator state.
-/

set_option maxHeartbeats 1000000

/-- Swap of two positions of a list, the Python statement
arr[i], arr[j] = arr[j], arr[i] in src/task1.py. -/
def listSwap (l : List Int) (i j : Nat) : List Int :=
  (l.set i (l.getD j 0)).set j (l.getD i 0)

/-- Scan loop of deterministic_partition, src/task1.py lines 15-18.
The Python index i starts at low - 1 and every access the loop makes is to
position i + 1; the parameter s here stores i + 1 (so s starts at low, a
swap targets position s, and the function returns the final i + 1 used by
line 20-21 of the source). -/
def lomutoLoop (pivot : Int) (high : Nat) (arr : List Int) (s j : Nat) :
    List Int × Nat :=
  if j < high then
    if arr.getD j 0 ≤ pivot then
      lomutoLoop pivot high (listSwap arr s j) (s + 1) (j + 1)
    else
      lomutoLoop pivot high arr s (j + 1)
  else
    (arr, s)
termination_by high - j

/-- deterministic_partition from src/task1.py lines 7-21: pivot is the last
element of the range, the scan loop runs j from low to high - 1, and at the
end the pivot is swapped to position i + 1, which is returned. -/
def deterministic_partition (arr : List Int) (low high : Nat) :
    List Int × Nat :=
  let pivot := arr.getD high 0
  let r := lomutoLoop pivot high arr low low
  (listSwap r.1 r.2 high, r.2)

theorem length_listSwap (l : List Int) (i j : Nat) :
    (listSwap l i j).length = l.length := by
  simp [listSwap]

theorem getD_listSwap_fst (l : List Int) (i j : Nat) (h : i < l.length) :
    (listSwap l i j).getD i 0 = l.getD j 0 := by
  unfold listSwap
  by_cases hij : i = j
  · subst hij
    simp [List.getD_eq_getElem?_getD, List.getElem?_set_self', h,
      List.getElem?_eq_getElem h]
  · rw [List.getD_eq_getElem?_getD, List.getElem?_set_ne (by omega),
      List.getElem?_set_self' ]
    simp [List.getD_eq_getElem?_getD, List.getElem?_eq_getElem h]

theorem getD_listSwap_snd (l : List Int) (i j : Nat) (h : j < l.length) :
    (listSwap l i j).getD j 0 = l.getD i 0 := by
  unfold listSwap
  rw [List.getD_eq_getElem?_getD, List.getElem?_set_self' ]
  simp [List.getD_eq_getElem?_getD, h]

theorem getD_listSwap_other (l : List Int) (i j k : Nat) (h1 : k ≠ i)
    (h2 : k ≠ j) : (listSwap l i j).getD k 0 = l.getD k 0 := by
  unfold listSwap
  rw [List.getD_eq_getElem?_getD, List.getElem?_set_ne (by omega),
    List.getElem?_set_ne (by omega), List.getD_eq_getElem?_getD]

theorem set_getD_self (l : List Int) (i : Nat) (h : i < l.length) :
    l.set i (l.getD i 0) = l := by
  apply List.ext_getElem (by simp)
  intro n h1 h2
  rw [List.getElem_set]
  split
  · next heq => subst heq; rw [List.getD_eq_getElem _ _ h]
  · rfl

theorem cons_set_perm : ∀ (t : List Int) (m : Nat) (a : Int),
    m < t.length → List.Perm (t.getD m 0 :: t.set m a) (a :: t) := by
  intro t
  induction t with
  | nil => intro m a h; simp at h
  | cons b t ih =>
    intro m a h
    match m with
    | 0 => simpa using List.Perm.swap a b t
    | Nat.succ k =>
      have hk : k < t.length := by simpa using h
      have step1 : List.Perm (t.getD k 0 :: b :: t.set k a)
          (b :: t.getD k 0 :: t.set k a) := List.Perm.swap _ _ _
      have step2 : List.Perm (b :: t.getD k 0 :: t.set k a) (b :: a :: t) :=
        List.Perm.cons b (ih k a hk)
      have step3 : List.Perm (b :: a :: t) (a :: b :: t) := List.Perm.swap _ _ _
      simpa using (step1.trans step2).trans step3

theorem listSwap_perm (l : List Int) (i j : Nat) (hi : i < l.length)
    (hj : j < l.length) : List.Perm (listSwap l i j) l := by
  by_cases hij : i = j
  · subst hij
    unfold listSwap
    rw [List.set_set, set_getD_self l i hi]
  · have h1 : List.Perm (l.getD i 0 :: l.set i (l.getD j 0))
        (l.getD j 0 :: l) := cons_set_perm l i (l.getD j 0) hi
    have hj1 : j < (l.set i (l.getD j 0)).length := by simpa using hj
    have h2 : List.Perm
        ((l.set i (l.getD j 0)).getD j 0 :: listSwap l i j)
        (l.getD i 0 :: l.set i (l.getD j 0)) :=
      cons_set_perm (l.set i (l.getD j 0)) j (l.getD i 0) hj1
    have hgd : (l.set i (l.getD j 0)).getD j 0 = l.getD j 0 := by
      rw [List.getD_eq_getElem?_getD, List.getElem?_set_ne hij,
        List.getD_eq_getElem?_getD]
    rw [hgd] at h2
    exact List.Perm.cons_inv (h2.trans h1)

theorem lomutoLoop_le (pivot : Int) (high : Nat) :
    ∀ (arr : List Int) (s j : Nat),
    s ≤ (lomutoLoop pivot high arr s j).2 ∧
    (lomutoLoop pivot high arr s j).2 ≤ s + (high - j) ∧
    (lomutoLoop pivot high arr s j).1.length = arr.length := by
  intro arr s j
  induction arr, s, j using lomutoLoop.induct pivot high with
  | case1 arr s j hj hle ih =>
    rw [lomutoLoop, if_pos hj, if_pos hle]
    refine ⟨by omega, by omega, ?_⟩
    rw [ih.2.2, length_listSwap]
  | case2 arr s j hj hle ih =>
    rw [lomutoLoop, if_pos hj, if_neg hle]
    exact ⟨ih.1, by omega, ih.2.2⟩
  | case3 arr s j hj =>
    rw [lomutoLoop, if_neg hj]
    exact ⟨Nat.le_refl s, by omega, rfl⟩

theorem lomutoLoop_spec (pivot : Int) (high : Nat) :
    ∀ (arr : List Int) (s j : Nat), s ≤ j → j ≤ high → high < arr.length →
    List.Perm (lomutoLoop pivot high arr s j).1 arr ∧
    (∀ k, k < s ∨ high ≤ k →
      (lomutoLoop pivot high arr s j).1.getD k 0 = arr.getD k 0) ∧
    ((∀ k, s ≤ k → k < j → pivot < arr.getD k 0) →
      (∀ k, s ≤ k → k < (lomutoLoop pivot high arr s j).2 →
        (lomutoLoop pivot high arr s j).1.getD k 0 ≤ pivot) ∧
      (∀ k, (lomutoLoop pivot high arr s j).2 ≤ k → k < high →
        pivot < (lomutoLoop pivot high arr s j).1.getD k 0)) := by
  intro arr s j
  induction arr, s, j using lomutoLoop.induct pivot high with
  | case1 arr s j hj hle ih =>
    intro hsj hjh hlen
    rw [lomutoLoop, if_pos hj, if_pos hle]
    have hs : s < arr.length := by omega
    have hjl : j < arr.length := by omega
    have hlen' : high < (listSwap arr s j).length := by
      rw [length_listSwap]; exact hlen
    obtain ⟨ihP, ihF, ihR⟩ := ih (by omega) (by omega) hlen'
    refine ⟨ihP.trans (listSwap_perm arr s j hs hjl), ?_, ?_⟩
    · intro k hk
      rw [ihF k (by omega), getD_listSwap_other arr s j k (by omega) (by omega)]
    · intro hreg
      have hreg' : ∀ k, s + 1 ≤ k → k < j + 1 →
          pivot < (listSwap arr s j).getD k 0 := by
        intro k h1 h2
        by_cases hkj : k = j
        · subst hkj
          rw [getD_listSwap_snd arr s k hjl]
          exact hreg s (Nat.le_refl s) (by omega)
        · rw [getD_listSwap_other arr s j k (by omega) hkj]
          exact hreg k (by omega) (by omega)
      obtain ⟨r1, r2⟩ := ihR hreg'
      refine ⟨?_, r2⟩
      intro k h1 h2
      by_cases hks : k = s
      · subst hks
        rw [ihF k (by omega), getD_listSwap_fst arr k j hs]
        exact hle
      · exact r1 k (by omega) h2
  | case2 arr s j hj hle ih =>
    intro hsj hjh hlen
    rw [lomutoLoop, if_pos hj, if_neg hle]
    obtain ⟨ihP, ihF, ihR⟩ := ih (by omega) (by omega) hlen
    refine ⟨ihP, ihF, ?_⟩
    intro hreg
    have hreg' : ∀ k, s ≤ k → k < j + 1 → pivot < arr.getD k 0 := by
      intro k h1 h2
      by_cases hkj : k = j
      · subst hkj; omega
      · exact hreg k h1 (by omega)
    exact ihR hreg'
  | case3 arr s j hj =>
    intro hsj hjh hlen
    rw [lomutoLoop, if_neg hj]
    refine ⟨List.Perm.refl arr, fun k _ => rfl, ?_⟩
    intro hreg
    refine ⟨fun k h1 h2 => by omega, fun k h1 h2 => ?_⟩
    exact hreg k h1 (by omega)

theorem deterministic_partition_bounds (arr : List Int) (low high : Nat)
    (h : low ≤ high) :
    low ≤ (deterministic_partition arr low high).2 ∧
    (deterministic_partition arr low high).2 ≤ high := by
  have hb := lomutoLoop_le (arr.getD high 0) high arr low low
  have h2 : (deterministic_partition arr low high).2 =
      (lomutoLoop (arr.getD high 0) high arr low low).2 := rfl
  omega

theorem deterministic_partition_spec (arr : List Int) (low high : Nat)
    (out : List Int) (p : Nat)
    (heq : deterministic_partition arr low high = (out, p))
    (h1 : low ≤ high) (h2 : high < arr.length) :
    low ≤ p ∧ p ≤ high ∧ out.length = arr.length ∧ List.Perm out arr ∧
    (∀ k, k < low ∨ high < k → out.getD k 0 = arr.getD k 0) ∧
    out.getD p 0 = arr.getD high 0 ∧
    (∀ k, low ≤ k → k < p → out.getD k 0 ≤ out.getD p 0) ∧
    (∀ k, p < k → k ≤ high → out.getD p 0 < out.getD k 0) := by
  have hb := lomutoLoop_le (arr.getD high 0) high arr low low
  obtain ⟨hP, hF, hR⟩ := lomutoLoop_spec (arr.getD high 0) high arr low low
    (Nat.le_refl low) h1 h2
  obtain ⟨R1, R2⟩ := hR (fun k hk1 hk2 => by omega)
  have hout : out = listSwap (lomutoLoop (arr.getD high 0) high arr low low).1
      (lomutoLoop (arr.getD high 0) high arr low low).2 high := by
    have h3 : (deterministic_partition arr low high).1 = out :=
      congrArg Prod.fst heq
    exact h3.symm
  have hp : p = (lomutoLoop (arr.getD high 0) high arr low low).2 := by
    have h4 : (deterministic_partition arr low high).2 = p :=
      congrArg Prod.snd heq
    exact h4.symm
  set A := (lomutoLoop (arr.getD high 0) high arr low low).1 with hA
  have hlenA : A.length = arr.length := hb.2.2
  have hpl : low ≤ p := by omega
  have hph : p ≤ high := by omega
  have hpA : p < A.length := by omega
  have hhA : high < A.length := by omega
  have hpiv : out.getD p 0 = arr.getD high 0 := by
    rw [hout, ← hp, getD_listSwap_fst A p high hpA]
    exact hF high (Or.inr (Nat.le_refl high))
  refine ⟨hpl, hph, ?_, ?_, ?_, hpiv, ?_, ?_⟩
  · rw [hout, length_listSwap, hlenA]
  · rw [hout, ← hp]
    exact (listSwap_perm A p high hpA hhA).trans hP
  · intro k hk
    rw [hout, ← hp, getD_listSwap_other A p high k (by omega) (by omega)]
    exact hF k (by omega)
  · intro k hk1 hk2
    rw [hpiv, hout, ← hp, getD_listSwap_other A p high k (by omega) (by omega)]
    exact R1 k hk1 (by omega)
  · intro k hk1 hk2
    rw [hpiv]
    by_cases hkh : k = high
    · subst hkh
      rw [hout, ← hp, getD_listSwap_snd A p k hhA]
      exact R2 p (by omega) (by omega)
    · rw [hout, ← hp, getD_listSwap_other A p high k (by omega) hkh]
      exact R2 k (by omega) (by omega)

/-- deterministic_quick_sort_helper from src/task1.py lines 37-42: recurse
on both sides of the partition point while low is less than high.  The
Python call on (low, pi - 1) with pi = 0 passes high = -1 and its guard
low < -1 fails exactly as the guard low < 0 - 1 = 0 fails here in
truncated Nat subtraction, so the Nat embedding takes the same branches. -/
def deterministic_quick_sort_helper (arr : List Int) (low high : Nat) :
    List Int :=
  if h : low < high then
    let pr := deterministic_partition arr low high
    deterministic_quick_sort_helper
      (deterministic_quick_sort_helper pr.1 low (pr.2 - 1)) (pr.2 + 1) high
  else
    arr
termination_by high - low
decreasing_by
  · have := deterministic_partition_bounds arr low high (by omega)
    omega
  · have := deterministic_partition_bounds arr low high (by omega)
    omega

/-- The draw random.randint(low, high) of src/task1.py line 30, embedded
against an explicit stream of raw draws: the head of the stream is mapped
onto the inclusive range low..high and the rest of the stream is returned.
Every value in low..high is reachable, so quantifying over all streams
covers every outcome of the uniform draw. -/
def randint (low high : Nat) (s : List Nat) : Nat × List Nat :=
  (low + s.headD 0 % (high + 1 - low), s.tail)

/-- randomized_partition from src/task1.py lines 24-34: draw a random index,
swap that element to position high, then run deterministic_partition. -/
def randomized_partition (s : List Nat) (arr : List Int) (low high : Nat) :
    (List Int × Nat) × List Nat :=
  let r := randint low high s
  (deterministic_partition (listSwap arr r.1 high) low high, r.2)

/-- randomized_quick_sort_helper from src/task1.py lines 45-50. -/
def randomized_quick_sort_helper (s : List Nat) (arr : List Int)
    (low high : Nat) : List Int × List Nat :=
  if h : low < high then
    let pr := randomized_partition s arr low high
    let l := randomized_quick_sort_helper pr.2 pr.1.1 low (pr.1.2 - 1)
    randomized_quick_sort_helper l.2 l.1 (pr.1.2 + 1) high
  else
    (arr, s)
termination_by high - low
decreasing_by
  · have hb := deterministic_partition_bounds
      (listSwap arr (randint low high s).1 high) low high (by omega)
    have he : (randomized_partition s arr low high).1.2 =
        (deterministic_partition (listSwap arr (randint low high s).1 high)
          low high).2 := rfl
    omega
  · have hb := deterministic_partition_bounds
      (listSwap arr (randint low high s).1 high) low high (by omega)
    have he : (randomized_partition s arr low high).1.2 =
        (deterministic_partition (listSwap arr (randint low high s).1 high)
          low high).2 := rfl
    omega

/-- deterministic_quick_sort from src/task1.py lines 53-60.  The source
copies the input and sorts the copy in place; values being immutable, the
copy is the identity here (the heap embedding below accounts for the
framing effect of the copy on the caller). -/
def deterministic_quick_sort (arr : List Int) : List Int :=
  deterministic_quick_sort_helper arr 0 (arr.length - 1)

/-- randomized_quick_sort from src/task1.py lines 63-70, threading the
stream of raw draws of the shared global generator. -/
def randomized_quick_sort (s : List Nat) (arr : List Int) :
    List Int × List Nat :=
  randomized_quick_sort_helper s arr 0 (arr.length - 1)

/-- The contiguous subrange of positions low..high of a list, used to state
which part of the array a recursive call may rearrange. -/
def rangeSlice (l : List Int) (low high : Nat) : List Int :=
  (l.drop low).take (high + 1 - low)

/-- Postcondition of an in-place sort of the subrange low..high: the length
is kept, positions outside low..high are untouched, the whole list is a
permutation of the input, and the subrange is in non-decreasing order. -/
def SortSpec (a b : List Int) (low high : Nat) : Prop :=
  b.length = a.length ∧
  (∀ k, k < low ∨ high < k → b.getD k 0 = a.getD k 0) ∧
  List.Perm b a ∧
  (∀ i j, low ≤ i → i ≤ j → j ≤ high → b.getD i 0 ≤ b.getD j 0)

theorem sortSpec_refl (a : List Int) (low high : Nat) (h : ¬ low < high) :
    SortSpec a a low high := by
  refine ⟨rfl, fun k _ => rfl, List.Perm.refl a, ?_⟩
  intro i j h1 h2 h3
  have : i = j := by omega
  subst this
  exact le_refl _

theorem take_eq_of_frame (a b : List Int) (n : Nat)
    (hlen : b.length = a.length)
    (hf : ∀ k, k < n → b.getD k 0 = a.getD k 0) : b.take n = a.take n := by
  apply List.ext_getElem (by simp [hlen])
  intro i h1 h2
  have hib : i < b.length := by simp at h1; omega
  have hia : i < a.length := by omega
  have := hf i (by simp at h1; omega)
  rw [List.getD_eq_getElem _ _ hib, List.getD_eq_getElem _ _ hia] at this
  simpa [List.getElem_take] using this

theorem drop_eq_of_frame (a b : List Int) (n : Nat)
    (hlen : b.length = a.length)
    (hf : ∀ k, n ≤ k → b.getD k 0 = a.getD k 0) : b.drop n = a.drop n := by
  apply List.ext_getElem (by simp [hlen])
  intro i h1 h2
  have hib : n + i < b.length := by simp at h1; omega
  have hia : n + i < a.length := by omega
  have := hf (n + i) (by omega)
  rw [List.getD_eq_getElem _ _ hib, List.getD_eq_getElem _ _ hia] at this
  simpa [List.getElem_drop] using this

theorem rangeSlice_decomp (l : List Int) (low high : Nat)
    (h : low ≤ high + 1) :
    l = l.take low ++ rangeSlice l low high ++ l.drop (high + 1) := by
  have h1 : rangeSlice l low high ++ l.drop (high + 1) = l.drop low := by
    have h2 : l.drop (high + 1) = (l.drop low).drop (high + 1 - low) := by
      rw [List.drop_drop]
      congr 1
      omega
    rw [h2]
    exact List.take_append_drop _ _
  rw [List.append_assoc, h1, List.take_append_drop]

theorem rangeSlice_perm_of_perm_frame (a b : List Int) (low high : Nat)
    (hlen : b.length = a.length) (hperm : List.Perm b a)
    (hf : ∀ k, k < low ∨ high < k → b.getD k 0 = a.getD k 0) :
    List.Perm (rangeSlice b low high) (rangeSlice a low high) := by
  by_cases hlh : low ≤ high + 1
  · have hT : b.take low = a.take low :=
      take_eq_of_frame a b low hlen (fun k hk => hf k (Or.inl hk))
    have hD : b.drop (high + 1) = a.drop (high + 1) :=
      drop_eq_of_frame a b (high + 1) hlen (fun k hk => hf k (Or.inr (by omega)))
    have hb := rangeSlice_decomp b low high hlh
    have ha := rangeSlice_decomp a low high hlh
    rw [hb, ha, hT, hD] at hperm
    rw [List.append_assoc, List.append_assoc] at hperm
    have hmid := (List.perm_append_left_iff (a.take low)).mp hperm
    exact (List.perm_append_right_iff (a.drop (high + 1))).mp hmid
  · have hb : rangeSlice b low high = [] := by
      unfold rangeSlice
      have : high + 1 - low = 0 := by omega
      rw [this, List.take_zero]
    have ha : rangeSlice a low high = [] := by
      unfold rangeSlice
      have : high + 1 - low = 0 := by omega
      rw [this, List.take_zero]
    rw [hb, ha]

theorem getD_mem_rangeSlice (l : List Int) (low high k : Nat) (h1 : low ≤ k)
    (h2 : k ≤ high) (h3 : k < l.length) :
    l.getD k 0 ∈ rangeSlice l low high := by
  have hlt : k - low < (rangeSlice l low high).length := by
    unfold rangeSlice
    simp only [List.length_take, List.length_drop]
    omega
  have hval : (rangeSlice l low high).getD (k - low) 0 = l.getD k 0 := by
    unfold rangeSlice
    rw [List.getD_eq_getElem?_getD, List.getElem?_take,
      if_pos (show k - low < high + 1 - low by omega),
      List.getElem?_drop, List.getD_eq_getElem?_getD]
    congr 2
    omega
  rw [← hval, List.getD_eq_getElem _ _ hlt]
  exact List.getElem_mem hlt

theorem mem_rangeSlice_bound (l : List Int) (low high : Nat) (x : Int)
    (hx : x ∈ rangeSlice l low high) :
    ∃ k, low ≤ k ∧ k ≤ high ∧ k < l.length ∧ l.getD k 0 = x := by
  obtain ⟨i, hi, hEq⟩ := List.mem_iff_getElem.mp hx
  have hibd : i < high + 1 - low ∧ low + i < l.length := by
    have := hi
    unfold rangeSlice at this
    simp only [List.length_take, List.length_drop] at this
    omega
  refine ⟨low + i, by omega, by omega, hibd.2, ?_⟩
  have hval : (rangeSlice l low high).getD i 0 = l.getD (low + i) 0 := by
    unfold rangeSlice
    rw [List.getD_eq_getElem?_getD, List.getElem?_take,
      if_pos (show i < high + 1 - low by omega),
      List.getElem?_drop, List.getD_eq_getElem?_getD]
  rw [← hval, List.getD_eq_getElem _ _ hi]
  exact hEq

theorem take_one_of_pos (l : List Int) (h : 0 < l.length) :
    l.take 1 = [l.getD 0 0] := by
  cases l with
  | nil => simp at h
  | cons a t => rfl

theorem sortSpec_step (arr arr1 arr2 arr3 : List Int) (low high p : Nat)
    (hlh : low < high) (hlen : high < arr.length)
    (hp1 : low ≤ p) (hp2 : p ≤ high)
    (hl1 : arr1.length = arr.length)
    (hperm1 : List.Perm arr1 arr)
    (hfr1 : ∀ k, k < low ∨ high < k → arr1.getD k 0 = arr.getD k 0)
    (hub : ∀ k, low ≤ k → k < p → arr1.getD k 0 ≤ arr1.getD p 0)
    (hlb : ∀ k, p < k → k ≤ high → arr1.getD p 0 < arr1.getD k 0)
    (h2 : SortSpec arr1 arr2 low (p - 1))
    (h3 : SortSpec arr2 arr3 (p + 1) high) :
    SortSpec arr arr3 low high := by
  obtain ⟨l2, f2, p2, s2⟩ := h2
  obtain ⟨l3, f3, p3, s3⟩ := h3
  have hlen2 : arr2.length = arr.length := by omega
  have hlen3 : arr3.length = arr.length := by omega
  have key1 : arr2.getD p 0 = arr1.getD p 0 := by
    by_cases hp0 : p = 0
    · subst hp0
      have hlow0 : low = 0 := by omega
      subst hlow0
      have hsl := rangeSlice_perm_of_perm_frame arr1 arr2 0 0 l2 p2 f2
      have e1 : rangeSlice arr1 0 0 = [arr1.getD 0 0] := by
        unfold rangeSlice
        simp only [List.drop_zero]
        exact take_one_of_pos arr1 (by omega)
      have e2 : rangeSlice arr2 0 0 = [arr2.getD 0 0] := by
        unfold rangeSlice
        simp only [List.drop_zero]
        exact take_one_of_pos arr2 (by omega)
      rw [e1, e2] at hsl
      have := List.perm_singleton.mp hsl
      injection this
    · exact f2 p (Or.inr (by omega))
  have key2 : arr3.getD p 0 = arr1.getD p 0 := by
    rw [f3 p (Or.inl (by omega))]
    exact key1
  have goalF : ∀ k, k < low ∨ high < k → arr3.getD k 0 = arr.getD k 0 := by
    intro k hk
    rw [f3 k (by omega), f2 k (by omega), hfr1 k hk]
  have Lv : ∀ k, low ≤ k → k < p → arr3.getD k 0 ≤ arr1.getD p 0 := by
    intro k hk1 hk2
    rw [f3 k (Or.inl (by omega))]
    have hmem : arr2.getD k 0 ∈ rangeSlice arr2 low (p - 1) :=
      getD_mem_rangeSlice arr2 low (p - 1) k hk1 (by omega) (by omega)
    have hsl := rangeSlice_perm_of_perm_frame arr1 arr2 low (p - 1) l2 p2 f2
    have hmem1 : arr2.getD k 0 ∈ rangeSlice arr1 low (p - 1) :=
      hsl.subset hmem
    obtain ⟨q, hq1, hq2, hq3, hq4⟩ :=
      mem_rangeSlice_bound arr1 low (p - 1) _ hmem1
    rw [← hq4]
    exact hub q hq1 (by omega)
  have Rv : ∀ k, p < k → k ≤ high → arr1.getD p 0 < arr3.getD k 0 := by
    intro k hk1 hk2
    have hmem : arr3.getD k 0 ∈ rangeSlice arr3 (p + 1) high :=
      getD_mem_rangeSlice arr3 (p + 1) high k (by omega) hk2 (by omega)
    have hsl := rangeSlice_perm_of_perm_frame arr2 arr3 (p + 1) high l3 p3 f3
    have hmem2 : arr3.getD k 0 ∈ rangeSlice arr2 (p + 1) high :=
      hsl.subset hmem
    obtain ⟨q, hq1, hq2, hq3, hq4⟩ :=
      mem_rangeSlice_bound arr2 (p + 1) high _ hmem2
    rw [← hq4, f2 q (Or.inr (by omega))]
    exact hlb q (by omega) hq2
  refine ⟨by omega, goalF, p3.trans (p2.trans hperm1), ?_⟩
  intro i j hi hij hj
  by_cases hjp : j < p
  · rw [f3 i (Or.inl (by omega)), f3 j (Or.inl (by omega))]
    exact s2 i j hi hij (by omega)
  · by_cases hip : p < i
    · exact s3 i j (by omega) hij hj
    · have step1 : arr3.getD i 0 ≤ arr3.getD p 0 := by
        by_cases hieq : i = p
        · subst hieq; exact le_refl _
        · rw [key2]
          exact Lv i hi (by omega)
      have step2 : arr3.getD p 0 ≤ arr3.getD j 0 := by
        by_cases hjeq : j = p
        · subst hjeq; exact le_refl _
        · rw [key2]
          exact le_of_lt (Rv j (by omega) hj)
      exact step1.trans step2

theorem deterministic_quick_sort_helper_spec :
    ∀ (arr : List Int) (low high : Nat), high < arr.length →
    SortSpec arr (deterministic_quick_sort_helper arr low high) low high := by
  intro arr low high
  induction arr, low, high using deterministic_quick_sort_helper.induct with
  | case1 arr low high hlt pr ih1 ih1x ih2 =>
    intro hlen
    have hpr : pr = deterministic_partition arr low high := rfl
    rw [hpr] at ih1 ih2
    obtain ⟨hp1, hp2, hlen1, hperm1, hfr1, hpiv, hub, hlb⟩ :=
      deterministic_partition_spec arr low high
        (deterministic_partition arr low high).1
        (deterministic_partition arr low high).2 rfl (by omega) hlen
    have ihL := ih1 (show (deterministic_partition arr low high).2 - 1 <
      (deterministic_partition arr low high).1.length by omega)
    have ihR := ih2 (show high <
        (deterministic_quick_sort_helper (deterministic_partition arr low high).1
          low ((deterministic_partition arr low high).2 - 1)).length by
      have := ihL.1
      omega)
    rw [deterministic_quick_sort_helper, dif_pos hlt]
    exact sortSpec_step arr (deterministic_partition arr low high).1
      (deterministic_quick_sort_helper (deterministic_partition arr low high).1
        low ((deterministic_partition arr low high).2 - 1))
      _ low high (deterministic_partition arr low high).2
      hlt hlen hp1 hp2 hlen1 hperm1 hfr1 hub hlb ihL ihR
  | case2 arr low high hlt =>
    intro hlen
    rw [deterministic_quick_sort_helper, dif_neg hlt]
    exact sortSpec_refl arr low high hlt

theorem randomized_quick_sort_helper_spec :
    ∀ (s : List Nat) (arr : List Int) (low high : Nat), high < arr.length →
    SortSpec arr (randomized_quick_sort_helper s arr low high).1 low high := by
  intro s arr low high
  induction s, arr, low, high using randomized_quick_sort_helper.induct with
  | case1 s arr low high hlt pr l ih1 ih1x ih2 =>
    intro hlen
    have hri : low ≤ (randint low high s).1 ∧ (randint low high s).1 ≤ high := by
      have hmod : s.headD 0 % (high + 1 - low) < high + 1 - low :=
        Nat.mod_lt _ (by omega)
      have : (randint low high s).1 = low + s.headD 0 % (high + 1 - low) := rfl
      omega
    have hA0len : (listSwap arr (randint low high s).1 high).length =
        arr.length := length_listSwap arr _ high
    have hA0perm : List.Perm (listSwap arr (randint low high s).1 high) arr :=
      listSwap_perm arr _ high (by omega) (by omega)
    have hA0fr : ∀ k, k < low ∨ high < k →
        (listSwap arr (randint low high s).1 high).getD k 0 = arr.getD k 0 := by
      intro k hk
      exact getD_listSwap_other arr _ high k (by omega) (by omega)
    obtain ⟨hp1, hp2, hlen1, hperm1, hfr1, hpiv, hub, hlb⟩ :=
      deterministic_partition_spec (listSwap arr (randint low high s).1 high)
        low high pr.1.1 pr.1.2 rfl (by omega) (by omega)
    have hl1' : pr.1.1.length = arr.length := by omega
    have hperm1' : List.Perm pr.1.1 arr := hperm1.trans hA0perm
    have hfr1' : ∀ k, k < low ∨ high < k → pr.1.1.getD k 0 = arr.getD k 0 := by
      intro k hk
      rw [hfr1 k hk]
      exact hA0fr k hk
    have iL' := ih1 (show pr.1.2 - 1 < pr.1.1.length by omega)
    have iL : SortSpec pr.1.1 l.1 low (pr.1.2 - 1) := iL'
    have iR := ih2 (show high < l.1.length by
      have := iL.1
      omega)
    rw [randomized_quick_sort_helper, dif_pos hlt]
    show SortSpec arr
      (randomized_quick_sort_helper l.2 l.1 (pr.1.2 + 1) high).1 low high
    exact sortSpec_step arr pr.1.1 l.1 _ low high pr.1.2 hlt hlen hp1 hp2
      hl1' hperm1' hfr1' hub hlb iL iR
  | case2 s arr low high hlt =>
    intro hlen
    rw [randomized_quick_sort_helper, dif_neg hlt]
    exact sortSpec_refl arr low high hlt

theorem sortSpec_full (arr out : List Int)
    (h : SortSpec arr out 0 (arr.length - 1)) (hpos : 0 < arr.length) :
    out = List.insertionSort (fun a b : Int => a ≤ b) arr := by
  obtain ⟨l1, f1, p1, s1⟩ := h
  have hsorted : List.Sorted (fun a b : Int => a ≤ b) out := by
    rw [List.Sorted, List.pairwise_iff_get]
    intro i j hij
    have hij' : (i : Nat) < (j : Nat) := hij
    have hi : (i : Nat) < out.length := i.isLt
    have hj : (j : Nat) < out.length := j.isLt
    have := s1 i j (Nat.zero_le _) (by omega) (by omega)
    rw [List.getD_eq_getElem _ _ hi, List.getD_eq_getElem _ _ hj] at this
    simpa [List.get_eq_getElem] using this
  exact List.eq_of_perm_of_sorted
    (p1.trans (List.perm_insertionSort _ arr).symm) hsorted
    (List.sorted_insertionSort _ arr)

theorem deterministic_quick_sort_eq_ref (arr : List Int) :
    deterministic_quick_sort arr =
      List.insertionSort (fun a b : Int => a ≤ b) arr := by
  by_cases hnil : arr = []
  · subst hnil
    rw [deterministic_quick_sort, deterministic_quick_sort_helper]
    simp
  · have hpos : 0 < arr.length := List.length_pos.mpr hnil
    exact sortSpec_full arr _
      (deterministic_quick_sort_helper_spec arr 0 (arr.length - 1) (by omega))
      hpos

theorem randomized_quick_sort_fst_eq_ref (s : List Nat) (arr : List Int) :
    (randomized_quick_sort s arr).1 =
      List.insertionSort (fun a b : Int => a ≤ b) arr := by
  by_cases hnil : arr = []
  · subst hnil
    rw [randomized_quick_sort, randomized_quick_sort_helper]
    simp
  · have hpos : 0 < arr.length := List.length_pos.mpr hnil
    exact sortSpec_full arr _
      (randomized_quick_sort_helper_spec s arr 0 (arr.length - 1) (by omega))
      hpos

/-- Teacher from src/task2.py lines 2-27.  The field assigned_subjects is
run-scoped mutable state reset by create_schedule; the scheduler embedding
tracks it in a separate list parallel to the pool, so the Teacher record
itself holds only the immutable fields. -/
structure Teacher (S : Type) where
  first_name : String
  last_name : String
  age : Int
  email : String
  can_teach_subjects : Finset S

instance (S : Type) : Inhabited (Teacher S) where
  default := ⟨"", "", 0, "", ∅⟩

/-- Coverage of pool teacher i, the quantity
len(teacher.can_teach_subjects & uncovered_subjects) of src/task2.py
line 75.  Teachers are identified by their position in the pool list,
which models Python object identity. -/
def covOf {S : Type} [DecidableEq S] (ts : List (Teacher S)) (u : Finset S)
    (i : Nat) : Nat :=
  ((ts.getD i default).can_teach_subjects ∩ u).card

/-- Age of pool teacher i, used by the tie-break of src/task2.py line 82. -/
def ageOf {S : Type} (ts : List (Teacher S)) (i : Nat) : Int :=
  (ts.getD i default).age

/-- One iteration of the selection scan of create_schedule, src/task2.py
lines 73-83: a strictly larger coverage replaces the best teacher and the
maximum, an equal positive coverage replaces the best teacher only when
the candidate is strictly younger.  The none branch of the match is
unreachable because a positive coverage equal to the maximum forces a best
teacher to have been recorded already. -/
def selectStep {S : Type} [DecidableEq S] (ts : List (Teacher S))
    (u : Finset S) (acc : Option Nat × Nat) (i : Nat) : Option Nat × Nat :=
  if acc.2 < covOf ts u i then
    (some i, covOf ts u i)
  else if covOf ts u i = acc.2 ∧ 0 < covOf ts u i then
    match acc.1 with
    | some b => if ageOf ts i < ageOf ts b then (some i, acc.2) else acc
    | none => acc
  else
    acc

/-- The whole selection scan of src/task2.py lines 70-83, starting from
best_teacher = None and max_coverage = 0. -/
def selectBest {S : Type} [DecidableEq S] (ts : List (Teacher S))
    (u : Finset S) (avail : List Nat) : Option Nat × Nat :=
  avail.foldl (selectStep ts u) (none, 0)

/-- Invariant of the selection scan after it has handled the first
elements p of the available list. -/
def SelInv {S : Type} [DecidableEq S] (ts : List (Teacher S)) (u : Finset S)
    (p : List Nat) (acc : Option Nat × Nat) : Prop :=
  (acc.1 = none → acc.2 = 0 ∧ ∀ i ∈ p, covOf ts u i = 0) ∧
  (∀ b, acc.1 = some b →
    covOf ts u b = acc.2 ∧ 0 < acc.2 ∧
    (∀ i ∈ p, covOf ts u i ≤ acc.2) ∧
    (∀ i ∈ p, covOf ts u i = acc.2 → ageOf ts b ≤ ageOf ts i) ∧
    ∃ l1 l2, p = l1 ++ b :: l2 ∧
      ∀ i ∈ l1, covOf ts u i < acc.2 ∨
        (covOf ts u i = acc.2 ∧ ageOf ts b < ageOf ts i))

theorem selInv_le {S : Type} [DecidableEq S] (ts : List (Teacher S))
    (u : Finset S) (p : List Nat) (acc : Option Nat × Nat)
    (h : SelInv ts u p acc) : ∀ i ∈ p, covOf ts u i ≤ acc.2 := by
  intro i hi
  cases hacc : acc.1 with
  | none =>
    obtain ⟨h0, hall⟩ := h.1 hacc
    rw [hall i hi]
    omega
  | some b => exact (h.2 b hacc).2.2.1 i hi

theorem selInv_step {S : Type} [DecidableEq S] (ts : List (Teacher S))
    (u : Finset S) (p : List Nat) (acc : Option Nat × Nat) (x : Nat)
    (h : SelInv ts u p acc) :
    SelInv ts u (p ++ [x]) (selectStep ts u acc x) := by
  have hle := selInv_le ts u p acc h
  unfold selectStep
  by_cases h1 : acc.2 < covOf ts u x
  · rw [if_pos h1]
    constructor
    · intro hn; simp at hn
    · intro b hb
      simp only [Option.some.injEq] at hb
      subst hb
      refine ⟨rfl, by omega, ?_, ?_, p, [], rfl, ?_⟩
      · intro i hi
        rcases List.mem_append.mp hi with hip | hix
        · have := hle i hip; omega
        · have : i = x := by simpa using hix
          subst this; exact le_refl _
      · intro i hi hcov
        rcases List.mem_append.mp hi with hip | hix
        · have := hle i hip; omega
        · have : i = x := by simpa using hix
          subst this; exact le_refl _
      · intro i hip
        have := hle i hip; omega
  · by_cases h2 : covOf ts u x = acc.2 ∧ 0 < covOf ts u x
    · rw [if_neg h1, if_pos h2]
      cases hacc : acc.1 with
      | none =>
        obtain ⟨h0, hall⟩ := h.1 hacc
        omega
      | some b0 =>
        obtain ⟨hcov0, hpos0, hle0, hage0, l1, l2, hsplit, hbefore⟩ :=
          h.2 b0 hacc
        by_cases h3 : ageOf ts x < ageOf ts b0
        · show SelInv ts u (p ++ [x])
            (if ageOf ts x < ageOf ts b0 then (some x, acc.2) else acc)
          rw [if_pos h3]
          constructor
          · intro hn; simp at hn
          · intro b hb
            simp only [Option.some.injEq] at hb
            subst hb
            refine ⟨by omega, by omega, ?_, ?_, p, [], rfl, ?_⟩
            · intro i hi
              rcases List.mem_append.mp hi with hip | hix
              · exact hle0 i hip
              · have : i = x := by simpa using hix
                subst this; omega
            · intro i hi hcov
              rcases List.mem_append.mp hi with hip | hix
              · exact le_of_lt (lt_of_lt_of_le h3 (hage0 i hip hcov))
              · have : i = x := by simpa using hix
                subst this; exact le_refl _
            · intro i hip
              by_cases hc : covOf ts u i = acc.2
              · exact Or.inr ⟨hc, lt_of_lt_of_le h3 (hage0 i hip hc)⟩
              · have := hle0 i hip
                exact Or.inl (by omega)
        · show SelInv ts u (p ++ [x])
            (if ageOf ts x < ageOf ts b0 then (some x, acc.2) else acc)
          rw [if_neg h3]
          constructor
          · intro hn; rw [hacc] at hn; simp at hn
          · intro b hb
            rw [hacc] at hb
            simp only [Option.some.injEq] at hb
            subst hb
            refine ⟨hcov0, hpos0, ?_, ?_, l1, l2 ++ [x], ?_, hbefore⟩
            · intro i hi
              rcases List.mem_append.mp hi with hip | hix
              · exact hle0 i hip
              · have : i = x := by simpa using hix
                subst this; omega
            · intro i hi hcov
              rcases List.mem_append.mp hi with hip | hix
              · exact hage0 i hip hcov
              · have : i = x := by simpa using hix
                subst this
                omega
            · rw [hsplit]
              simp
    · rw [if_neg h1, if_neg h2]
      constructor
      · intro hn
        obtain ⟨h0, hall⟩ := h.1 hn
        refine ⟨h0, ?_⟩
        intro i hi
        rcases List.mem_append.mp hi with hip | hix
        · exact hall i hip
        · have : i = x := by simpa using hix
          subst this; omega
      · intro b hb
        obtain ⟨hcov0, hpos0, hle0, hage0, l1, l2, hsplit, hbefore⟩ :=
          h.2 b hb
        refine ⟨hcov0, hpos0, ?_, ?_, l1, l2 ++ [x], ?_, hbefore⟩
        · intro i hi
          rcases List.mem_append.mp hi with hip | hix
          · exact hle0 i hip
          · have : i = x := by simpa using hix
            subst this; omega
        · intro i hi hcov
          rcases List.mem_append.mp hi with hip | hix
          · exact hage0 i hip hcov
          · have : i = x := by simpa using hix
            subst this; omega
        · rw [hsplit]
          simp

theorem selectFold_inv {S : Type} [DecidableEq S] (ts : List (Teacher S))
    (u : Finset S) :
    ∀ (l p : List Nat) (acc : Option Nat × Nat), SelInv ts u p acc →
    SelInv ts u (p ++ l) (l.foldl (selectStep ts u) acc) := by
  intro l
  induction l with
  | nil => intro p acc h; simpa using h
  | cons x l ih =>
    intro p acc h
    have hstep := selInv_step ts u p acc x h
    have := ih (p ++ [x]) (selectStep ts u acc x) hstep
    simpa using this

theorem selectBest_spec {S : Type} [DecidableEq S] (ts : List (Teacher S))
    (u : Finset S) (avail : List Nat) (b m : Nat)
    (h : selectBest ts u avail = (some b, m)) :
    b ∈ avail ∧ covOf ts u b = m ∧ 0 < m ∧
    (∀ i ∈ avail, covOf ts u i ≤ m) ∧
    (∀ i ∈ avail, covOf ts u i = m → ageOf ts b ≤ ageOf ts i) ∧
    (∃ l1 l2, avail = l1 ++ b :: l2 ∧
      ∀ i ∈ l1, covOf ts u i < m ∨
        (covOf ts u i = m ∧ ageOf ts b < ageOf ts i)) := by
  have hbase : SelInv ts u [] ((none, 0) : Option Nat × Nat) := by
    constructor
    · intro _; exact ⟨rfl, fun i hi => by simp at hi⟩
    · intro b hb; simp at hb
  have hinv0 := selectFold_inv ts u avail [] (none, 0) hbase
  simp only [List.nil_append] at hinv0
  have hinv : SelInv ts u avail (selectBest ts u avail) := hinv0
  have h1 : (selectBest ts u avail).1 = some b := by rw [h]
  have h2 : (selectBest ts u avail).2 = m := by rw [h]
  obtain ⟨hcov, hpos, hle, hage, l1, l2, hsplit, hbefore⟩ := hinv.2 b h1
  rw [h2] at hcov hpos hle hage hbefore
  refine ⟨?_, hcov, hpos, hle, hage, l1, l2, hsplit, hbefore⟩
  rw [hsplit]
  exact List.mem_append.mpr (Or.inr (List.mem_cons_self b l2))

theorem selectBest_of_all_zero {S : Type} [DecidableEq S]
    (ts : List (Teacher S)) (u : Finset S) (avail : List Nat)
    (h : ∀ i ∈ avail, covOf ts u i = 0) :
    selectBest ts u avail = (none, 0) := by
  have hbase : SelInv ts u [] ((none, 0) : Option Nat × Nat) := by
    constructor
    · intro _; exact ⟨rfl, fun i hi => by simp at hi⟩
    · intro b hb; simp at hb
  have hinv0 := selectFold_inv ts u avail [] (none, 0) hbase
  simp only [List.nil_append] at hinv0
  have hinv : SelInv ts u avail (selectBest ts u avail) := hinv0
  cases hfst : (selectBest ts u avail).1 with
  | some b =>
    have heq : selectBest ts u avail = (some b, (selectBest ts u avail).2) := by
      have hx : selectBest ts u avail =
          ((selectBest ts u avail).1, (selectBest ts u avail).2) := rfl
      rw [hfst] at hx
      exact hx
    obtain ⟨hb, hcov, hpos, _, _, _⟩ :=
      selectBest_spec ts u avail b (selectBest ts u avail).2 heq
    rw [h b hb] at hcov
    omega
  | none =>
    obtain ⟨h0, _⟩ := hinv.1 hfst
    have hx : selectBest ts u avail =
        ((selectBest ts u avail).1, (selectBest ts u avail).2) := rfl
    rw [hfst, h0] at hx
    exact hx

/-- Greedy loop of create_schedule, src/task2.py lines 65-105.  Teachers
are pool positions; avail is the list of still-available positions in pool
order, sel the selection order so far and asg the current
assigned_subjects state of every pool teacher.  A best teacher of None or
a maximum coverage of 0 returns None together with the assignment state
the run leaves behind on the Teacher objects; otherwise the chosen
teacher receives exactly its contribution can_teach & uncovered, those
subjects leave the uncovered set, the teacher leaves the available list
and is appended to the selection. -/
def scheduleLoop {S : Type} [DecidableEq S] (ts : List (Teacher S))
    (u : Finset S) (avail : List Nat) (sel : List Nat)
    (asg : List (Finset S)) : Option (List Nat) × List (Finset S) :=
  if hu : u.Nonempty then
    match hb : (selectBest ts u avail).1 with
    | none => (none, asg)
    | some b =>
      if hm : (selectBest ts u avail).2 = 0 then
        (none, asg)
      else
        scheduleLoop ts (u \ ((ts.getD b default).can_teach_subjects ∩ u))
          (avail.erase b) (sel ++ [b])
          (asg.set b ((ts.getD b default).can_teach_subjects ∩ u))
  else
    (some sel, asg)
termination_by u.card
decreasing_by
  have heq : selectBest ts u avail = (some b, (selectBest ts u avail).2) := by
    have hx : selectBest ts u avail =
        ((selectBest ts u avail).1, (selectBest ts u avail).2) := rfl
    rw [hb] at hx
    exact hx
  obtain ⟨hmem, hcov, hpos, _, _, _⟩ :=
    selectBest_spec ts u avail b (selectBest ts u avail).2 heq
  have hne : ((ts.getD b default).can_teach_subjects ∩ u).Nonempty := by
    rw [← Finset.card_pos]
    unfold covOf at hcov
    omega
  exact Finset.card_lt_card
    (Finset.sdiff_ssubset (Finset.inter_subset_right) hne)

/-- create_schedule from src/task2.py lines 30-108: copy the subject set
and the teacher list, reset every assigned_subjects to empty, then run the
greedy loop.  The first component is the Python return value (None or the
selected list), the second is the assigned_subjects state of the pool
after the call. -/
def create_schedule {S : Type} [DecidableEq S] (subjects : Finset S)
    (teachers : List (Teacher S)) : Option (List Nat) × List (Finset S) :=
  scheduleLoop teachers subjects (List.range teachers.length) []
    (List.replicate teachers.length ∅)

/-- Guard of print_detailed_schedule, src/task2.py lines 113-115: the
detailed roster is printed only when the Python value if not schedule is
false, which holds both for None and for the empty list. -/
def print_detailed_schedule_reports (schedule : Option (List Nat)) : Bool :=
  match schedule with
  | none => false
  | some l => !l.isEmpty

/-- The per-round contract of the greedy loop on the selection order it
emits: each selected teacher is assigned exactly its capability
intersected with the subjects uncovered at its round, and the next round
continues with those subjects removed. -/
def roundsOk {S : Type} [DecidableEq S] (ts : List (Teacher S)) :
    Finset S → List Nat → (Nat → Finset S) → Prop
  | _, [], _ => True
  | u, i :: rest, f =>
      f i = (ts.getD i default).can_teach_subjects ∩ u ∧
      roundsOk ts (u \ ((ts.getD i default).can_teach_subjects ∩ u)) rest f

theorem scheduleLoop_eq_of_none {S : Type} [DecidableEq S]
    (ts : List (Teacher S)) (u : Finset S) (avail sel : List Nat)
    (asg : List (Finset S)) (hu : u.Nonempty)
    (hb : (selectBest ts u avail).1 = none) :
    scheduleLoop ts u avail sel asg = (none, asg) := by
  rw [scheduleLoop.eq_def, dif_pos hu]
  split
  · rfl
  · next b hbs =>
    rw [hb] at hbs
    exact absurd hbs (by simp)

theorem scheduleLoop_eq_of_zero {S : Type} [DecidableEq S]
    (ts : List (Teacher S)) (u : Finset S) (avail sel : List Nat)
    (asg : List (Finset S)) (b : Nat) (hu : u.Nonempty)
    (hb : (selectBest ts u avail).1 = some b)
    (hm : (selectBest ts u avail).2 = 0) :
    scheduleLoop ts u avail sel asg = (none, asg) := by
  rw [scheduleLoop.eq_def, dif_pos hu]
  split
  · rfl
  · next c hbs =>
    rw [hb] at hbs
    have hbc : b = c := by simpa using hbs
    subst hbc
    rw [dif_pos hm]

theorem scheduleLoop_eq_of_pos {S : Type} [DecidableEq S]
    (ts : List (Teacher S)) (u : Finset S) (avail sel : List Nat)
    (asg : List (Finset S)) (b : Nat) (hu : u.Nonempty)
    (hb : (selectBest ts u avail).1 = some b)
    (hm : ¬ (selectBest ts u avail).2 = 0) :
    scheduleLoop ts u avail sel asg =
      scheduleLoop ts (u \ ((ts.getD b default).can_teach_subjects ∩ u))
        (avail.erase b) (sel ++ [b])
        (asg.set b ((ts.getD b default).can_teach_subjects ∩ u)) := by
  rw [scheduleLoop.eq_def, dif_pos hu]
  split
  · next hbs => rw [hb] at hbs; exact absurd hbs (by simp)
  · next c hbs =>
    rw [hb] at hbs
    have hbc : b = c := by simpa using hbs
    subst hbc
    rw [dif_neg hm]

theorem scheduleLoop_eq_of_empty {S : Type} [DecidableEq S]
    (ts : List (Teacher S)) (u : Finset S) (avail sel : List Nat)
    (asg : List (Finset S)) (hu : ¬ u.Nonempty) :
    scheduleLoop ts u avail sel asg = (some sel, asg) := by
  rw [scheduleLoop.eq_def, dif_neg hu]

theorem getD_set_self_gen {α : Type} (l : List α) (i : Nat) (v d : α)
    (h : i < l.length) : (l.set i v).getD i d = v := by
  simp [List.getD_eq_getElem?_getD, List.getElem?_set_self',
    List.getElem?_eq_getElem h]

theorem getD_set_ne_gen {α : Type} (l : List α) (i j : Nat) (v d : α)
    (h : i ≠ j) : (l.set i v).getD j d = l.getD j d := by
  rw [List.getD_eq_getElem?_getD, List.getElem?_set_ne h,
    ← List.getD_eq_getElem?_getD]

theorem scheduleLoop_sound {S : Type} [DecidableEq S]
    (ts : List (Teacher S)) :
    ∀ (u : Finset S) (avail sel : List Nat) (asg : List (Finset S)),
    avail.Nodup → (∀ i ∈ avail, i < asg.length) →
    ∀ (res : List Nat) (A : List (Finset S)),
    scheduleLoop ts u avail sel asg = (some res, A) →
    ∃ extra, res = sel ++ extra ∧ extra.Nodup ∧
      (∀ i ∈ extra, i ∈ avail) ∧
      roundsOk ts u extra (fun i => A.getD i ∅) ∧
      (∀ i ∈ extra, A.getD i ∅ ⊆ u) ∧
      extra.foldr (fun i t => A.getD i ∅ ∪ t) ∅ = u ∧
      List.Pairwise (fun i j => Disjoint (A.getD i ∅) (A.getD j ∅)) extra ∧
      (∀ i, i ∉ extra → A.getD i ∅ = asg.getD i ∅) ∧
      A.length = asg.length := by
  intro u avail sel asg
  induction u, avail, sel, asg using scheduleLoop.induct ts with
  | case1 u avail sel asg hu hb =>
    intro hnd hlt res A heq
    rw [scheduleLoop_eq_of_none ts u avail sel asg hu hb] at heq
    exact absurd heq (by simp)
  | case2 u avail sel asg hu b hb hm =>
    intro hnd hlt res A heq
    rw [scheduleLoop_eq_of_zero ts u avail sel asg b hu hb hm] at heq
    exact absurd heq (by simp)
  | case3 u avail sel asg hu b hb hm ih =>
    intro hnd hlt res A heq
    rw [scheduleLoop_eq_of_pos ts u avail sel asg b hu hb hm] at heq
    have hsb : selectBest ts u avail = (some b, (selectBest ts u avail).2) := by
      have hx : selectBest ts u avail =
          ((selectBest ts u avail).1, (selectBest ts u avail).2) := rfl
      rw [hb] at hx
      exact hx
    obtain ⟨hmem, hcov, hpos, hlemax, hage, hsp⟩ :=
      selectBest_spec ts u avail b (selectBest ts u avail).2 hsb
    have htsub : (ts.getD b default).can_teach_subjects ∩ u ⊆ u :=
      Finset.inter_subset_right
    have hblen : b < asg.length := hlt b hmem
    have ihg := ih (hnd.erase b)
      (fun i hi => by
        rw [List.length_set]
        exact hlt i (List.mem_of_mem_erase hi))
      res A heq
    obtain ⟨extra, hres, hnd2, hsubav, hrounds, hsub, hunion, hdisj,
      hframe, hlenA⟩ := ihg
    have hbne : b ∉ extra := fun hbe => hnd.not_mem_erase (hsubav b hbe)
    have hAb : A.getD b ∅ = (ts.getD b default).can_teach_subjects ∩ u := by
      rw [hframe b hbne]
      exact getD_set_self_gen asg b _ ∅ hblen
    refine ⟨b :: extra, ?_, ?_, ?_, ?_, ?_, ?_, ?_, ?_, ?_⟩
    · rw [hres]
      simp
    · exact List.nodup_cons.mpr ⟨hbne, hnd2⟩
    · intro i hi
      rcases List.mem_cons.mp hi with hib | hie
      · subst hib; exact hmem
      · exact List.mem_of_mem_erase (hsubav i hie)
    · exact ⟨hAb, hrounds⟩
    · intro i hi
      rcases List.mem_cons.mp hi with hib | hie
      · subst hib
        rw [hAb]
        exact htsub
      · exact (hsub i hie).trans (Finset.sdiff_subset)
    · show A.getD b ∅ ∪ extra.foldr (fun i t => A.getD i ∅ ∪ t) ∅ = u
      rw [hAb, hunion]
      exact Finset.union_sdiff_of_subset htsub
    · refine List.pairwise_cons.mpr ⟨?_, hdisj⟩
      intro j hj
      rw [hAb]
      exact Finset.disjoint_sdiff.mono_right (hsub j hj)
    · intro i hi
      have hib : i ≠ b := fun hh => hi (hh ▸ List.mem_cons_self i extra)
      have hie : i ∉ extra := fun hh => hi (List.mem_cons_of_mem b hh)
      rw [hframe i hie]
      exact getD_set_ne_gen asg b i _ ∅ (fun hh => hib hh.symm)
    · rw [hlenA, List.length_set]
  | case4 u avail sel asg hu =>
    intro hnd hlt res A heq
    rw [scheduleLoop_eq_of_empty ts u avail sel asg hu] at heq
    have hue : u = ∅ := Finset.not_nonempty_iff_eq_empty.mp hu
    injection heq with h1 h2
    injection h1 with h1
    subst h1
    subst h2
    refine ⟨[], by simp, List.nodup_nil, by simp, trivial, by simp,
      by simp [hue], List.Pairwise.nil, fun i _ => rfl, rfl⟩

theorem roundsOk_subset_capability {S : Type} [DecidableEq S]
    (ts : List (Teacher S)) :
    ∀ (l : List Nat) (u : Finset S) (f : Nat → Finset S),
    roundsOk ts u l f →
    ∀ i ∈ l, f i ⊆ (ts.getD i default).can_teach_subjects := by
  intro l
  induction l with
  | nil => intro u f h i hi; simp at hi
  | cons j rest ih =>
    intro u f h i hi
    obtain ⟨hj, hrest⟩ := h
    rcases List.mem_cons.mp hi with hij | hir
    · subst hij
      rw [hj]
      exact Finset.inter_subset_left
    · exact ih _ f hrest i hir

theorem selectBest_fst_of_all_zero {S : Type} [DecidableEq S]
    (ts : List (Teacher S)) (u : Finset S) (avail : List Nat)
    (h : ∀ i ∈ avail, covOf ts u i = 0) :
    (selectBest ts u avail).1 = none := by
  rw [selectBest_of_all_zero ts u avail h]

/-- A heap of Python list-of-int objects: a reference is an index into the
store.  Only what the framing contract of the sort entry points needs is
modelled: reading through a reference, allocating a fresh object, writing
through a reference. -/
def heapGet (h : List (List Int)) (r : Nat) : List Int :=
  h.getD r []

/-- Allocation of a fresh list object, as performed by arr.copy() on
src/task1.py lines 58 and 68: the new object receives the next unused
reference. -/
def heapAlloc (h : List (List Int)) (v : List Int) : List (List Int) × Nat :=
  (h ++ [v], h.length)

/-- deterministic_quick_sort observed at the heap level, src/task1.py
lines 53-60: copy the argument object into a fresh object, sort that
object in place, return the reference of the copy. -/
def deterministic_quick_sort_prog (h : List (List Int)) (r : Nat) :
    List (List Int) × Nat :=
  let a := heapAlloc h (heapGet h r)
  let v := heapGet a.1 a.2
  (a.1.set a.2 (deterministic_quick_sort_helper v 0 (v.length - 1)), a.2)

/-- randomized_quick_sort observed at the heap level, src/task1.py
lines 63-70, threading the draw stream of the global generator. -/
def randomized_quick_sort_prog (s : List Nat) (h : List (List Int))
    (r : Nat) : (List (List Int) × Nat) × List Nat :=
  let a := heapAlloc h (heapGet h r)
  let v := heapGet a.1 a.2
  let rs := randomized_quick_sort_helper s v 0 (v.length - 1)
  ((a.1.set a.2 rs.1, a.2), rs.2)

theorem heapGet_append_lt (h : List (List Int)) (v : List Int) (r : Nat)
    (hr : r < h.length) : heapGet (h ++ [v]) r = heapGet h r := by
  unfold heapGet
  rw [List.getD_eq_getElem?_getD, List.getElem?_append_left hr,
    ← List.getD_eq_getElem?_getD]

theorem heapGet_append_self (h : List (List Int)) (v : List Int) :
    heapGet (h ++ [v]) h.length = v := by
  unfold heapGet
  rw [List.getD_eq_getElem?_getD, List.getElem?_append_right (le_refl _)]
  simp

theorem deterministic_quick_sort_helper_base (arr : List Int)
    (low high : Nat) (h : ¬ low < high) :
    deterministic_quick_sort_helper arr low high = arr := by
  rw [deterministic_quick_sort_helper, dif_neg h]

theorem randomized_quick_sort_helper_base (s : List Nat) (arr : List Int)
    (low high : Nat) (h : ¬ low < high) :
    randomized_quick_sort_helper s arr low high = (arr, s) := by
  rw [randomized_quick_sort_helper, dif_neg h]

theorem randomized_quick_sort_pair_snd (s : List Nat) (a b : Int) :
    (randomized_quick_sort s [a, b]).2 = s.tail := by
  show (randomized_quick_sort_helper s [a, b] 0 1).2 = s.tail
  rw [randomized_quick_sort_helper, dif_pos (by omega : (0 : Nat) < 1)]
  have hbd := deterministic_partition_bounds
    (listSwap [a, b] (randint 0 1 s).1 1) 0 1 (by omega)
  have hp : (randomized_partition s [a, b] 0 1).1.2 =
      (deterministic_partition (listSwap [a, b] (randint 0 1 s).1 1) 0 1).2 :=
    rfl
  show (randomized_quick_sort_helper
      (randomized_quick_sort_helper (randomized_partition s [a, b] 0 1).2
        (randomized_partition s [a, b] 0 1).1.1 0
        ((randomized_partition s [a, b] 0 1).1.2 - 1)).2
      (randomized_quick_sort_helper (randomized_partition s [a, b] 0 1).2
        (randomized_partition s [a, b] 0 1).1.1 0
        ((randomized_partition s [a, b] 0 1).1.2 - 1)).1
      ((randomized_partition s [a, b] 0 1).1.2 + 1) 1).2 = s.tail
  rw [randomized_quick_sort_helper_base _ _ 0
      ((randomized_partition s [a, b] 0 1).1.2 - 1) (by omega),
    randomized_quick_sort_helper_base _ _
      ((randomized_partition s [a, b] 0 1).1.2 + 1) 1 (by omega)]
  rfl

theorem dqs_prog_eq (h : List (List Int)) (r : Nat) :
    deterministic_quick_sort_prog h r =
      ((h ++ [heapGet h r]).set h.length
        (deterministic_quick_sort_helper (heapGet h r) 0
          ((heapGet h r).length - 1)), h.length) := by
  show ((h ++ [heapGet h r]).set h.length
      (deterministic_quick_sort_helper (heapGet (h ++ [heapGet h r]) h.length)
        0 ((heapGet (h ++ [heapGet h r]) h.length).length - 1)), h.length) = _
  rw [heapGet_append_self]

theorem rqs_prog_eq (s : List Nat) (h : List (List Int)) (r : Nat) :
    randomized_quick_sort_prog s h r =
      (((h ++ [heapGet h r]).set h.length
          (randomized_quick_sort_helper s (heapGet h r) 0
            ((heapGet h r).length - 1)).1, h.length),
        (randomized_quick_sort_helper s (heapGet h r) 0
          ((heapGet h r).length - 1)).2) := by
  show (((h ++ [heapGet h r]).set h.length
      (randomized_quick_sort_helper s (heapGet (h ++ [heapGet h r]) h.length)
        0 ((heapGet (h ++ [heapGet h r]) h.length).length - 1)).1, h.length),
      (randomized_quick_sort_helper s (heapGet (h ++ [heapGet h r]) h.length)
        0 ((heapGet (h ++ [heapGet h r]) h.length).length - 1)).2) = _
  rw [heapGet_append_self]

/-- C1: For every finite sequence of integers (including the empty
sequence, singletons, all-equal, sorted and reverse-sorted sequences),
both deterministic_quick_sort and randomized_quick_sort, the latter under
every outcome of the random draws, return the reference ascending sort of
the same multiset of elements: the sorted permutation given by insertion
sort. -/
theorem C1_sort_matches_reference (arr : List Int) (s : List Nat) :
    deterministic_quick_sort arr =
      List.insertionSort (fun a b : Int => a ≤ b) arr ∧
    (randomized_quick_sort s arr).1 =
      List.insertionSort (fun a b : Int => a ≤ b) arr ∧
    List.Sorted (fun a b : Int => a ≤ b)
      (List.insertionSort (fun a b : Int => a ≤ b) arr) ∧
    List.Perm (List.insertionSort (fun a b : Int => a ≤ b) arr) arr :=
  ⟨deterministic_quick_sort_eq_ref arr, randomized_quick_sort_fst_eq_ref s arr,
    List.sorted_insertionSort _ arr, List.perm_insertionSort _ arr⟩

/-- C5: randomized_partition draws an index lying in the inclusive range
low..high, swaps that element into position high, and then runs exactly
the deterministic partition routine; for every input and every outcome of
the draws the randomized sort returns the same output as the
deterministic sort. -/
theorem C5_randomized_refines_deterministic (s : List Nat) (arr : List Int)
    (low high : Nat) (h : low ≤ high) :
    low ≤ (randint low high s).1 ∧ (randint low high s).1 ≤ high ∧
    randomized_partition s arr low high =
      (deterministic_partition (listSwap arr (randint low high s).1 high)
        low high, (randint low high s).2) ∧
    (randomized_quick_sort s arr).1 = deterministic_quick_sort arr := by
  have hmod : s.headD 0 % (high + 1 - low) < high + 1 - low :=
    Nat.mod_lt _ (by omega)
  have hri : (randint low high s).1 = low + s.headD 0 % (high + 1 - low) :=
    rfl
  refine ⟨by omega, by omega, rfl, ?_⟩
  rw [randomized_quick_sort_fst_eq_ref, deterministic_quick_sort_eq_ref]

theorem C5_witness :
    (0 : Nat) ≤ 1 ∧
    ((0 : Nat) ≤ (randint 0 1 [3]).1 ∧ (randint 0 1 [3]).1 ≤ 1 ∧
      randomized_partition [3] [5, 1] 0 1 =
        (deterministic_partition (listSwap [5, 1] (randint 0 1 [3]).1 1)
          0 1, (randint 0 1 [3]).2) ∧
      (randomized_quick_sort [3] [5, 1]).1 =
        deterministic_quick_sort [5, 1]) :=
  ⟨by decide, C5_randomized_refines_deterministic [3] [5, 1] 0 1 (by decide)⟩

/-- C6: For indices low at most high, high inside the array,
deterministic_partition returns a split point p between low and high such
that the element now at p is the original pivot arr[high], every element
of positions low..p-1 is at most the pivot, every element of positions
p+1..high is strictly greater, the whole list is a permutation of the
input, and every position outside low..high is unchanged. -/
theorem C6_partition_postcondition (arr : List Int) (low high : Nat)
    (h1 : low ≤ high) (h2 : high < arr.length) :
    low ≤ (deterministic_partition arr low high).2 ∧
    (deterministic_partition arr low high).2 ≤ high ∧
    (deterministic_partition arr low high).1.length = arr.length ∧
    List.Perm (deterministic_partition arr low high).1 arr ∧
    (∀ k, k < low ∨ high < k →
      (deterministic_partition arr low high).1.getD k 0 = arr.getD k 0) ∧
    (deterministic_partition arr low high).1.getD
      (deterministic_partition arr low high).2 0 = arr.getD high 0 ∧
    (∀ k, low ≤ k → k < (deterministic_partition arr low high).2 →
      (deterministic_partition arr low high).1.getD k 0 ≤
        (deterministic_partition arr low high).1.getD
          (deterministic_partition arr low high).2 0) ∧
    (∀ k, (deterministic_partition arr low high).2 < k → k ≤ high →
      (deterministic_partition arr low high).1.getD
        (deterministic_partition arr low high).2 0 <
        (deterministic_partition arr low high).1.getD k 0) :=
  deterministic_partition_spec arr low high
    (deterministic_partition arr low high).1
    (deterministic_partition arr low high).2 rfl h1 h2

theorem C6_witness :
    (0 : Nat) ≤ 2 ∧ 2 < ([3, 1, 2] : List Int).length ∧
    (0 ≤ (deterministic_partition [3, 1, 2] 0 2).2 ∧
      (deterministic_partition [3, 1, 2] 0 2).2 ≤ 2 ∧
      (deterministic_partition [3, 1, 2] 0 2).1.length =
        ([3, 1, 2] : List Int).length ∧
      List.Perm (deterministic_partition [3, 1, 2] 0 2).1 [3, 1, 2] ∧
      (∀ k, k < 0 ∨ 2 < k →
        (deterministic_partition [3, 1, 2] 0 2).1.getD k 0 =
          ([3, 1, 2] : List Int).getD k 0) ∧
      (deterministic_partition [3, 1, 2] 0 2).1.getD
        (deterministic_partition [3, 1, 2] 0 2).2 0 =
        ([3, 1, 2] : List Int).getD 2 0 ∧
      (∀ k, 0 ≤ k → k < (deterministic_partition [3, 1, 2] 0 2).2 →
        (deterministic_partition [3, 1, 2] 0 2).1.getD k 0 ≤
          (deterministic_partition [3, 1, 2] 0 2).1.getD
            (deterministic_partition [3, 1, 2] 0 2).2 0) ∧
      (∀ k, (deterministic_partition [3, 1, 2] 0 2).2 < k → k ≤ 2 →
        (deterministic_partition [3, 1, 2] 0 2).1.getD
          (deterministic_partition [3, 1, 2] 0 2).2 0 <
          (deterministic_partition [3, 1, 2] 0 2).1.getD k 0)) :=
  ⟨by decide, by decide, C6_partition_postcondition [3, 1, 2] 0 2
    (by decide) (by decide)⟩

/-- C7: Neither sort entry point mutates the caller's list object: the
input is copied into a fresh object, the copy is sorted in place and its
reference is returned, so after the call the caller's reference still
holds the original contents and the returned reference is a different
object holding the sorted result. -/
theorem C7_input_not_mutated (h : List (List Int)) (r : Nat) (s : List Nat)
    (hr : r < h.length) :
    heapGet (deterministic_quick_sort_prog h r).1 r = heapGet h r ∧
    (deterministic_quick_sort_prog h r).2 ≠ r ∧
    heapGet (deterministic_quick_sort_prog h r).1
      (deterministic_quick_sort_prog h r).2 =
      deterministic_quick_sort (heapGet h r) ∧
    heapGet (randomized_quick_sort_prog s h r).1.1 r = heapGet h r ∧
    (randomized_quick_sort_prog s h r).1.2 ≠ r ∧
    heapGet (randomized_quick_sort_prog s h r).1.1
      (randomized_quick_sort_prog s h r).1.2 =
      (randomized_quick_sort s (heapGet h r)).1 := by
  have hlen2 : h.length < (h ++ [heapGet h r]).length := by
    simp
  refine ⟨?_, ?_, ?_, ?_, ?_, ?_⟩
  · rw [dqs_prog_eq]
    show heapGet ((h ++ [heapGet h r]).set h.length _) r = heapGet h r
    unfold heapGet
    rw [getD_set_ne_gen _ _ _ _ _ (by omega)]
    exact heapGet_append_lt h (heapGet h r) r hr
  · rw [dqs_prog_eq]
    show h.length ≠ r
    omega
  · rw [dqs_prog_eq]
    show heapGet ((h ++ [heapGet h r]).set h.length _) h.length = _
    unfold heapGet
    rw [getD_set_self_gen _ _ _ _ (by simp)]
    rfl
  · rw [rqs_prog_eq]
    show heapGet ((h ++ [heapGet h r]).set h.length _) r = heapGet h r
    unfold heapGet
    rw [getD_set_ne_gen _ _ _ _ _ (by omega)]
    exact heapGet_append_lt h (heapGet h r) r hr
  · rw [rqs_prog_eq]
    show h.length ≠ r
    omega
  · rw [rqs_prog_eq]
    show heapGet ((h ++ [heapGet h r]).set h.length _) h.length = _
    unfold heapGet
    rw [getD_set_self_gen _ _ _ _ (by simp)]
    rfl

theorem C7_witness :
    (0 : Nat) < ([[2, 1]] : List (List Int)).length ∧
    (heapGet (deterministic_quick_sort_prog [[2, 1]] 0).1 0 =
        heapGet [[2, 1]] 0 ∧
      (deterministic_quick_sort_prog [[2, 1]] 0).2 ≠ 0 ∧
      heapGet (deterministic_quick_sort_prog [[2, 1]] 0).1
        (deterministic_quick_sort_prog [[2, 1]] 0).2 =
        deterministic_quick_sort (heapGet [[2, 1]] 0) ∧
      heapGet (randomized_quick_sort_prog [7] [[2, 1]] 0).1.1 0 =
        heapGet [[2, 1]] 0 ∧
      (randomized_quick_sort_prog [7] [[2, 1]] 0).1.2 ≠ 0 ∧
      heapGet (randomized_quick_sort_prog [7] [[2, 1]] 0).1.1
        (randomized_quick_sort_prog [7] [[2, 1]] 0).1.2 =
        (randomized_quick_sort [7] (heapGet [[2, 1]] 0)).1) :=
  ⟨by decide, C7_input_not_mutated [[2, 1]] 0 [7] (by decide)⟩

/-- Sample teacher covering both sample subjects, for concrete instances. -/
def sampleTeacherA : Teacher Nat :=
  ⟨"Olena", "H", 30, "o@example.com", {0, 1}⟩

/-- Sample teacher covering only subject 0, for concrete instances. -/
def sampleTeacherB : Teacher Nat :=
  ⟨"Maria", "P", 25, "m@example.com", {0}⟩

/-- Sample teacher covering subject 0 at age 25, a younger tie partner. -/
def sampleTeacherC : Teacher Nat :=
  ⟨"Ivan", "K", 25, "i@example.com", {0}⟩

theorem create_schedule_example_eval :
    create_schedule ({0, 1} : Finset Nat) [sampleTeacherA] =
      (some [0], [({0, 1} : Finset Nat)]) := by
  show scheduleLoop [sampleTeacherA] {0, 1} [0] [] [∅] = _
  have hb : (selectBest [sampleTeacherA] ({0, 1} : Finset Nat) [0]).1 =
      some 0 := by decide
  have hm : ¬ (selectBest [sampleTeacherA] ({0, 1} : Finset Nat) [0]).2 = 0 :=
    by decide
  rw [scheduleLoop_eq_of_pos [sampleTeacherA] {0, 1} [0] [] [∅] 0
    (by decide) hb hm]
  have e1 : ({0, 1} : Finset Nat) \
      (([sampleTeacherA].getD 0 default).can_teach_subjects ∩ {0, 1}) =
      (∅ : Finset Nat) := by decide
  have e2 : ([0] : List Nat).erase 0 = [] := by decide
  have e4 : ([∅] : List (Finset Nat)).set 0
      (([sampleTeacherA].getD 0 default).can_teach_subjects ∩ {0, 1}) =
      [({0, 1} : Finset Nat)] := by decide
  rw [e1, e2, e4]
  rw [scheduleLoop_eq_of_empty [sampleTeacherA] ∅ [] ([] ++ [0])
    [({0, 1} : Finset Nat)] (by simp)]
  rfl

theorem create_schedule_failure_eval :
    create_schedule ({0, 1} : Finset Nat) [sampleTeacherB] =
      (none, [({0} : Finset Nat)]) := by
  show scheduleLoop [sampleTeacherB] {0, 1} [0] [] [∅] = _
  have hb : (selectBest [sampleTeacherB] ({0, 1} : Finset Nat) [0]).1 =
      some 0 := by decide
  have hm : ¬ (selectBest [sampleTeacherB] ({0, 1} : Finset Nat) [0]).2 = 0 :=
    by decide
  rw [scheduleLoop_eq_of_pos [sampleTeacherB] {0, 1} [0] [] [∅] 0
    (by decide) hb hm]
  have e1 : ({0, 1} : Finset Nat) \
      (([sampleTeacherB].getD 0 default).can_teach_subjects ∩ {0, 1}) =
      ({1} : Finset Nat) := by decide
  have e2 : ([0] : List Nat).erase 0 = [] := by decide
  have e4 : ([∅] : List (Finset Nat)).set 0
      (([sampleTeacherB].getD 0 default).can_teach_subjects ∩ {0, 1}) =
      [({0} : Finset Nat)] := by decide
  rw [e1, e2, e4]
  rw [scheduleLoop_eq_of_none [sampleTeacherB] {1} [] ([] ++ [0])
    [({0} : Finset Nat)] (by decide) (by decide)]

/-- C2: When create_schedule succeeds, the selection has no repeated
teacher, every round assigns exactly the chosen teacher's capability
intersected with the subjects still uncovered in that round (hence a
subset of the capability set), the assignment sets of the selected
teachers are pairwise disjoint, and their union is exactly the
universe. -/
theorem C2_schedule_success_invariants {S : Type} [DecidableEq S]
    (u : Finset S) (ts : List (Teacher S)) (sel : List Nat)
    (hsel : (create_schedule u ts).1 = some sel) :
    sel.Nodup ∧
    roundsOk ts u sel (fun i => (create_schedule u ts).2.getD i ∅) ∧
    (∀ i ∈ sel, (create_schedule u ts).2.getD i ∅ ⊆
      (ts.getD i default).can_teach_subjects) ∧
    List.Pairwise (fun i j => Disjoint ((create_schedule u ts).2.getD i ∅)
      ((create_schedule u ts).2.getD j ∅)) sel ∧
    sel.foldr (fun i t => (create_schedule u ts).2.getD i ∅ ∪ t) ∅ = u := by
  have heq : scheduleLoop ts u (List.range ts.length) []
      (List.replicate ts.length ∅) = (some sel, (create_schedule u ts).2) := by
    have hx : create_schedule u ts =
        ((create_schedule u ts).1, (create_schedule u ts).2) := rfl
    rw [hsel] at hx
    exact hx
  obtain ⟨extra, hres, hnd, hmem, hrounds, hsub, hunion, hdisj, hframe,
    hlen⟩ := scheduleLoop_sound ts u (List.range ts.length) []
      (List.replicate ts.length ∅) (List.nodup_range ts.length)
      (fun i hi => by simpa using List.mem_range.mp hi)
      sel (create_schedule u ts).2 heq
  have hse : sel = extra := by simpa using hres
  subst hse
  refine ⟨hnd, hrounds, ?_, hdisj, hunion⟩
  exact roundsOk_subset_capability ts sel u _ hrounds

theorem C2_witness :
    (create_schedule ({0, 1} : Finset Nat) [sampleTeacherA]).1 = some [0] ∧
    (([0] : List Nat).Nodup ∧
      roundsOk [sampleTeacherA] {0, 1} [0]
        (fun i => (create_schedule ({0, 1} : Finset Nat)
          [sampleTeacherA]).2.getD i ∅) ∧
      (∀ i ∈ ([0] : List Nat),
        (create_schedule ({0, 1} : Finset Nat) [sampleTeacherA]).2.getD i ∅ ⊆
          ([sampleTeacherA].getD i default).can_teach_subjects) ∧
      List.Pairwise (fun i j =>
        Disjoint ((create_schedule ({0, 1} : Finset Nat)
            [sampleTeacherA]).2.getD i ∅)
          ((create_schedule ({0, 1} : Finset Nat)
            [sampleTeacherA]).2.getD j ∅)) [0] ∧
      ([0] : List Nat).foldr (fun i t =>
        (create_schedule ({0, 1} : Finset Nat)
          [sampleTeacherA]).2.getD i ∅ ∪ t) ∅ = {0, 1}) :=
  ⟨by rw [create_schedule_example_eval],
    C2_schedule_success_invariants {0, 1} [sampleTeacherA] [0]
      (by rw [create_schedule_example_eval])⟩

/-- C3: The selection scan picks an available teacher of strictly maximal
coverage, positive coverage, with minimal age among the teachers tied at
the maximum, and earliest in available order among teachers tied on both
coverage and age; and the scheduler is a function of its input, so equal
inputs give equal outputs. -/
theorem C3_greedy_selection_rule {S : Type} [DecidableEq S]
    (ts : List (Teacher S)) (u : Finset S) (avail : List Nat) (b m : Nat)
    (h : selectBest ts u avail = (some b, m)) :
    b ∈ avail ∧ covOf ts u b = m ∧ 0 < m ∧
    (∀ i ∈ avail, covOf ts u i ≤ m) ∧
    (∀ i ∈ avail, covOf ts u i = m → ageOf ts b ≤ ageOf ts i) ∧
    (∃ l1 l2, avail = l1 ++ b :: l2 ∧
      ∀ i ∈ l1, ¬ (covOf ts u i = m ∧ ageOf ts i = ageOf ts b)) ∧
    create_schedule u ts = create_schedule u ts := by
  obtain ⟨hmem, hcov, hpos, hle, hage, l1, l2, hsplit, hbefore⟩ :=
    selectBest_spec ts u avail b m h
  refine ⟨hmem, hcov, hpos, hle, hage, ⟨l1, l2, hsplit, ?_⟩, rfl⟩
  intro i hi hcontra
  rcases hbefore i hi with hlt | ⟨hc2, hage2⟩
  · omega
  · have h1 := hcontra.2
    have h2 := hage2
    omega

theorem C3_witness :
    selectBest [sampleTeacherA, sampleTeacherC] ({0} : Finset Nat) [0, 1] =
      (some 1, 1) ∧
    ((1 : Nat) ∈ ([0, 1] : List Nat) ∧
      covOf [sampleTeacherA, sampleTeacherC] {0} 1 = 1 ∧ 0 < 1 ∧
      (∀ i ∈ ([0, 1] : List Nat),
        covOf [sampleTeacherA, sampleTeacherC] {0} i ≤ 1) ∧
      (∀ i ∈ ([0, 1] : List Nat),
        covOf [sampleTeacherA, sampleTeacherC] {0} i = 1 →
        ageOf [sampleTeacherA, sampleTeacherC] 1 ≤
          ageOf [sampleTeacherA, sampleTeacherC] i) ∧
      (∃ l1 l2, ([0, 1] : List Nat) = l1 ++ 1 :: l2 ∧
        ∀ i ∈ l1, ¬ (covOf [sampleTeacherA, sampleTeacherC] {0} i = 1 ∧
          ageOf [sampleTeacherA, sampleTeacherC] i =
            ageOf [sampleTeacherA, sampleTeacherC] 1)) ∧
      create_schedule ({0} : Finset Nat) [sampleTeacherA, sampleTeacherC] =
        create_schedule ({0} : Finset Nat) [sampleTeacherA, sampleTeacherC]) :=
  ⟨by decide, C3_greedy_selection_rule [sampleTeacherA, sampleTeacherC]
    {0} [0, 1] 1 1 (by decide)⟩

/-- C4 (amended): In any round whose uncovered set is nonempty and in
which no available teacher covers any uncovered subject, the loop
terminates immediately and returns the bare failure value None, which
differs from every success value; the residual uncovered set is nonempty;
the selected list built so far is discarded, while the assignment state
already written is simply left as it is. -/
theorem C4_uncoverable_failure {S : Type} [DecidableEq S]
    (ts : List (Teacher S)) (u : Finset S) (avail sel : List Nat)
    (asg : List (Finset S)) (hu : u.Nonempty)
    (hcov : ∀ i ∈ avail, covOf ts u i = 0) :
    scheduleLoop ts u avail sel asg = (none, asg) ∧
    u ≠ ∅ ∧
    (∀ l : List Nat, (some l : Option (List Nat)) ≠ none) := by
  refine ⟨?_, Finset.nonempty_iff_ne_empty.mp hu, fun l hl => by simp at hl⟩
  exact scheduleLoop_eq_of_none ts u avail sel asg hu
    (selectBest_fst_of_all_zero ts u avail hcov)

theorem C4_witness :
    ({1} : Finset Nat).Nonempty ∧
    (∀ i ∈ ([0] : List Nat), covOf [sampleTeacherB] ({1} : Finset Nat) i = 0) ∧
    (scheduleLoop [sampleTeacherB] ({1} : Finset Nat) [0] [] [∅] =
        (none, [∅]) ∧
      ({1} : Finset Nat) ≠ ∅ ∧
      (∀ l : List Nat, (some l : Option (List Nat)) ≠ none)) :=
  ⟨by decide, by decide,
    C4_uncoverable_failure [sampleTeacherB] {1} [0] [] [∅]
      (by decide) (by decide)⟩

theorem C4_counterexample :
    create_schedule ({0, 1} : Finset Nat) [sampleTeacherB] =
      (none, [({0} : Finset Nat)]) ∧
    ({0} : Finset Nat) ≠ ∅ := by
  refine ⟨create_schedule_failure_eval, by decide⟩

/-- C8: Both cores terminate: the quick sort helpers return their input
unchanged on any range with low at least high, the partition point of a
nonempty range lies between low and high so that both recursive subranges
are strictly smaller, and every selecting round of the scheduler strictly
shrinks the uncovered set. -/
theorem C8_termination_structure {S : Type} [DecidableEq S]
    (ts : List (Teacher S)) (u : Finset S) (avail : List Nat) :
    (∀ (arr : List Int) (low high : Nat), ¬ low < high →
      deterministic_quick_sort_helper arr low high = arr) ∧
    (∀ (s : List Nat) (arr : List Int) (low high : Nat), ¬ low < high →
      randomized_quick_sort_helper s arr low high = (arr, s)) ∧
    (∀ (arr : List Int) (low high : Nat), low < high →
      low ≤ (deterministic_partition arr low high).2 ∧
      (deterministic_partition arr low high).2 ≤ high ∧
      (deterministic_partition arr low high).2 - 1 - low < high - low ∧
      high - ((deterministic_partition arr low high).2 + 1) < high - low) ∧
    (∀ (b m : Nat), selectBest ts u avail = (some b, m) → m ≠ 0 →
      (u \ ((ts.getD b default).can_teach_subjects ∩ u)).card < u.card) := by
  refine ⟨deterministic_quick_sort_helper_base,
    randomized_quick_sort_helper_base, ?_, ?_⟩
  · intro arr low high h
    have hb := deterministic_partition_bounds arr low high (le_of_lt h)
    omega
  · intro b m hsel hm
    obtain ⟨hmem, hcov, hpos, _, _, _⟩ := selectBest_spec ts u avail b m hsel
    have hne : ((ts.getD b default).can_teach_subjects ∩ u).Nonempty := by
      rw [← Finset.card_pos]
      unfold covOf at hcov
      omega
    exact Finset.card_lt_card
      (Finset.sdiff_ssubset Finset.inter_subset_right hne)

theorem C8_witness :
    (¬ (1 : Nat) < 1) ∧
    deterministic_quick_sort_helper [5] 1 1 = [5] ∧
    randomized_quick_sort_helper [2] [5] 1 1 = ([5], [2]) ∧
    ((0 : Nat) < 1) ∧
    (0 ≤ (deterministic_partition [2, 1] 0 1).2 ∧
      (deterministic_partition [2, 1] 0 1).2 ≤ 1 ∧
      (deterministic_partition [2, 1] 0 1).2 - 1 - 0 < 1 - 0 ∧
      1 - ((deterministic_partition [2, 1] 0 1).2 + 1) < 1 - 0) ∧
    selectBest [sampleTeacherB] ({0} : Finset Nat) [0] = (some 0, 1) ∧
    (({0} : Finset Nat) \
      (([sampleTeacherB].getD 0 default).can_teach_subjects ∩ {0})).card <
      ({0} : Finset Nat).card :=
  ⟨by decide,
    (C8_termination_structure [sampleTeacherB] ({0} : Finset Nat) [0]).1
      [5] 1 1 (by decide),
    (C8_termination_structure [sampleTeacherB] ({0} : Finset Nat) [0]).2.1
      [2] [5] 1 1 (by decide),
    by decide,
    (C8_termination_structure [sampleTeacherB] ({0} : Finset Nat) [0]).2.2.1
      [2, 1] 0 1 (by decide),
    by decide,
    (C8_termination_structure [sampleTeacherB] ({0} : Finset Nat) [0]).2.2.2
      0 1 (by decide) (by decide)⟩

/-- C9 (amended): The sorted result of the randomized variant does not
depend on the state of the shared generator, hence not on how many calls
preceded it, and the deterministic variant is a pure function of its
input; only the generator state consumed and left behind differs between
call orders. -/
theorem C9_result_independent_of_rng_state (s1 s2 : List Nat)
    (arr : List Int) :
    (randomized_quick_sort s1 arr).1 = (randomized_quick_sort s2 arr).1 ∧
    deterministic_quick_sort arr =
      List.insertionSort (fun a b : Int => a ≤ b) arr := by
  constructor
  · rw [randomized_quick_sort_fst_eq_ref, randomized_quick_sort_fst_eq_ref]
  · exact deterministic_quick_sort_eq_ref arr

/-- C9 counterexample: under the fixed seed stream 0, 0, the full outcome
of the call on the list 2, 1 (its sorted result together with the
generator state it leaves behind) differs according to whether another
sort call preceded it, so a call's behavior does depend on the calls
before it through the shared generator state. -/
theorem C9_counterexample :
    randomized_quick_sort ((randomized_quick_sort [0, 0] [2, 1]).2) [2, 1] ≠
      randomized_quick_sort [0, 0] [2, 1] := by
  intro hcontra
  have h2 := congrArg Prod.snd hcontra
  simp only [randomized_quick_sort_pair_snd] at h2
  simp at h2

/-- C10: With an empty universe the scheduler succeeds immediately with
the empty selection, a value different from the failure value None, and
every pool teacher's assignment set is left empty; the truthiness test
used by the repository's own reporting code cannot tell this success from
failure, so a caller has to compare against None. -/
theorem C10_empty_universe_trivial_success {S : Type} [DecidableEq S]
    (ts : List (Teacher S)) :
    create_schedule (∅ : Finset S) ts =
      (some [], List.replicate ts.length ∅) ∧
    (some ([] : List Nat) ≠ (none : Option (List Nat))) ∧
    print_detailed_schedule_reports (some []) =
      print_detailed_schedule_reports none := by
  refine ⟨?_, by simp, rfl⟩
  exact scheduleLoop_eq_of_empty ts ∅ (List.range ts.length) []
    (List.replicate ts.length ∅) (by simp)
